import Mathlib

/-!
Shallow embedding of the BeatBattles room lifecycle service
(server/src/services/roomService.ts) and the room-code utilities
(server/src/utils/roomUtils.ts), with theorems checking the
natural-language specification against the code.

Modelling conventions:
  - TypeScript strings become String, numbers become Nat (timestamps are
    epoch milliseconds), optional fields become Option.
  - The two module-level JavaScript Maps (rooms, roomsByCode) become
    association lists with Map.get / Map.set / Map.delete semantics
    (set replaces in place when the key is present, else appends).
  - Randomness is passed in as a parameter: generateRoomCode takes the six
    index draws (Math.floor(Math.random() * characters.length) always lands
    in [0, characters.length)), startGame takes the drawn theme index, and
    createRoom takes the generated code and uuid as parameters (the source
    retries code generation until the code is unused and uuidv4 ids are
    assumed fresh, so the operation-level wrapper requires freshness).
  - Mutating service functions return the updated server state explicitly.
-/

namespace BeatBattles

/-- User record from server/src/types/index.ts. -/
structure User where
  id : String
  username : String
  avatar : Option String := none
  isConnected : Bool
  socketId : Option String := none
  deriving DecidableEq, Repr

/-- RoomStatus enum from server/src/types/index.ts. -/
inductive RoomStatus where
  | waiting
  | composing
  | voting
  | results
  deriving DecidableEq, Repr

/-- Room record from server/src/types/index.ts. -/
structure Room where
  id : String
  code : String
  status : RoomStatus
  hostId : String
  players : List User
  maxPlayers : Nat
  theme : Option String := none
  createdAt : Nat
  updatedAt : Nat
  deriving DecidableEq, Repr

/-- GameState record from server/src/types/index.ts (the fields produced by
getGameState; the compositions/votes/results fields are never populated by
the service and are omitted). -/
structure GameState where
  roomId : String
  status : RoomStatus
  theme : Option String
  timeRemaining : Option Nat
  deriving DecidableEq, Repr

/-! ## roomUtils.ts -/

/-- The character set of generateRoomCode, roomUtils.ts line 10:
"ABCDEFGHJKLMNPQRSTUVWXYZ23456789" (excluding similar-looking 0, 1, I, O). -/
def roomCodeAlphabet : List Char :=
  "ABCDEFGHJKLMNPQRSTUVWXYZ23456789".toList

theorem roomCodeAlphabet_length : roomCodeAlphabet.length = 32 := by decide

/-- generateRoomCode, roomUtils.ts lines 9-19. The loop body draws
randomIndex = Math.floor(Math.random() * characters.length), which always
lies in [0, 32); the six draws are the parameter. -/
def generateRoomCode (rand : Fin 6 → Fin 32) : String :=
  String.mk ((List.finRange 6).map fun i =>
    roomCodeAlphabet.get ((rand i).cast roomCodeAlphabet_length.symm))

/-- One character of the class [A-Z0-9]. -/
def isUpperAlphaNum (c : Char) : Bool :=
  ('A' ≤ c && c ≤ 'Z') || ('0' ≤ c && c ≤ '9')

/-- isValidRoomCode, roomUtils.ts lines 26-30: the test of the regex
/^[A-Z0-9]\x7b6\x7d$/, i.e. exactly six characters, each from [A-Z0-9]. -/
def isValidRoomCode (code : String) : Bool :=
  code.length == 6 && code.toList.all isUpperAlphaNum

/-- formatRoomCode, roomUtils.ts lines 37-40. The guard (!code) is true for
the empty string; slice(0, 3) and slice(3) become take/drop on characters. -/
def formatRoomCode (code : String) : String :=
  if code = "" ∨ code.length ≠ 6 then code
  else String.mk (code.toList.take 3) ++ " " ++ String.mk (code.toList.drop 3)

example : isValidRoomCode "ABC123" = true := by decide
example : isValidRoomCode "abc123" = false := by decide
example : isValidRoomCode "ABC12" = false := by decide
example : isValidRoomCode "ABC-12" = false := by decide
example : formatRoomCode "ABC123" = "ABC 123" := by decide
example : formatRoomCode "AB" = "AB" := by decide
example : formatRoomCode "" = "" := by decide

/-! ## Association-list model of the two JavaScript Maps -/

/-- Map.get on an association list. -/
def mapGet (k : String) : List (String × α) → Option α
  | [] => none
  | e :: m => if e.1 = k then some e.2 else mapGet k m

/-- Map.set on an association list: replace in place when the key is
present, append otherwise (JavaScript Map.set keeps insertion order). -/
def mapSet (k : String) (v : α) : List (String × α) → List (String × α)
  | [] => [(k, v)]
  | e :: m => if e.1 = k then (k, v) :: m else e :: mapSet k v m

/-- Map.delete on an association list. -/
def mapDelete (k : String) (m : List (String × α)) : List (String × α) :=
  m.filter (fun e => e.1 ≠ k)

/-- The module-level storage of roomService.ts lines 9-10: rooms maps room
ids to rooms, roomsByCode maps room codes to room ids. -/
structure ServerState where
  rooms : List (String × Room)
  roomsByCode : List (String × String)
  deriving DecidableEq, Repr

/-- The state before any operation: both Maps empty. -/
def initialState : ServerState := ⟨[], []⟩

/-! ## roomService.ts operations -/

/-- getRoomByCode, roomService.ts lines 51-58. -/
def getRoomByCode (s : ServerState) (code : String) : Option Room :=
  if ¬ isValidRoomCode code then none
  else
    match mapGet code s.roomsByCode with
    | none => none
    | some roomId => mapGet roomId s.rooms

/-- getRoomById, roomService.ts lines 65-67. -/
def getRoomById (s : ServerState) (id : String) : Option Room :=
  mapGet id s.rooms

/-- createRoom, roomService.ts lines 18-44. The source draws roomCode in a
retry loop until it is absent from roomsByCode and draws roomId from
uuidv4; here both are parameters and the operation wrapper (applyOp)
only fires the creation when they are fresh, which is what the retry
loop and uuid freshness guarantee. -/
def createRoom (s : ServerState) (host : User) (maxPlayers : Nat)
    (roomId roomCode : String) (now : Nat) : Room × ServerState :=
  let room : Room :=
    { id := roomId, code := roomCode, status := RoomStatus.waiting,
      hostId := host.id, players := [host], maxPlayers := maxPlayers,
      theme := none, createdAt := now, updatedAt := now }
  (room, { rooms := mapSet roomId room s.rooms,
           roomsByCode := mapSet roomCode roomId s.roomsByCode })

/-- Replace the first element satisfying the predicate, as the source's
players[findIndex(...)] = ... assignment does. -/
def updateFirst (p : α → Bool) (f : α → α) : List α → List α
  | [] => []
  | x :: xs => if p x then f x :: xs else x :: updateFirst p f xs

/-- joinRoom, roomService.ts lines 75-104. The update branch spreads the
stored player, then the incoming user, then isConnected: true; since the
incoming User carries every field, the merged record is the incoming user
with isConnected set to true. -/
def joinRoom (s : ServerState) (roomCode : String) (user : User) (now : Nat) :
    Option Room × ServerState :=
  match getRoomByCode s roomCode with
  | none => (none, s)
  | some room =>
    if room.players.length ≥ room.maxPlayers then (none, s)
    else if room.status ≠ RoomStatus.waiting then (none, s)
    else
      let players :=
        if room.players.any (fun p => p.id == user.id) then
          updateFirst (fun p => p.id == user.id)
            (fun _ => { user with isConnected := true }) room.players
        else room.players ++ [{ user with isConnected := true }]
      let room' := { room with players := players, updatedAt := now }
      (some room', { s with rooms := mapSet room.id room' s.rooms })

/-- leaveRoom, roomService.ts lines 112-146. Host reassignment (lines
123-130) happens before the member is filtered out; when no remaining
connected player exists, hostId is left unchanged. An emptied room is
deleted from both Maps and the call returns undefined (here: none). -/
def leaveRoom (s : ServerState) (roomCode userId : String) (now : Nat) :
    Option Room × ServerState :=
  match getRoomByCode s roomCode with
  | none => (none, s)
  | some room =>
    if ¬ room.players.any (fun p => p.id == userId) then (some room, s)
    else
      let hostId :=
        if room.hostId = userId ∧ room.players.length > 1 then
          match room.players.find? (fun p => p.id != userId && p.isConnected) with
          | some newHost => newHost.id
          | none => room.hostId
        else room.hostId
      let players := room.players.filter (fun p => p.id != userId)
      if players.length = 0 then
        (none, { rooms := mapDelete room.id s.rooms,
                 roomsByCode := mapDelete room.code s.roomsByCode })
      else
        let room' := { room with
          hostId := hostId, players := players, updatedAt := now }
        (some room', { s with rooms := mapSet room.id room' s.rooms })

/-- The theme catalog of startGame, roomService.ts lines 162-173. -/
def themes : List String :=
  ["Space Adventure", "Underwater Journey", "Jungle Expedition",
   "Desert Mirage", "Cyberpunk City", "Medieval Castle", "Haunted Mansion",
   "Tropical Paradise", "Arctic Wilderness", "Steampunk Factory"]

theorem themes_length : themes.length = 10 := by decide

/-- startGame, roomService.ts lines 154-185. The random theme index
Math.floor(Math.random() * themes.length) lies in [0, 10) and is the
parameter. Note the source checks host and player count but never the
current status. -/
def startGame (s : ServerState) (roomCode userId : String)
    (themeIdx : Fin 10) (now : Nat) : Option Room × ServerState :=
  match getRoomByCode s roomCode with
  | none => (none, s)
  | some room =>
    if room.hostId ≠ userId then (none, s)
    else if room.players.length < 2 then (none, s)
    else
      let room' := { room with
        status := RoomStatus.composing,
        theme := some (themes.get (themeIdx.cast themes_length.symm)),
        updatedAt := now }
      (some room', { s with rooms := mapSet room.id room' s.rooms })

/-- getAvailableRooms, roomService.ts lines 191-195: the stored rooms in
Waiting status with spare capacity, sorted newest-first by the comparator
b.createdAt - a.createdAt. -/
def getAvailableRooms (s : ServerState) : List Room :=
  ((s.rooms.map Prod.snd).filter
      (fun room => room.status = RoomStatus.waiting
        ∧ room.players.length < room.maxPlayers)).mergeSort
    (fun a b => b.createdAt ≤ a.createdAt)

/-- updateUserConnection, roomService.ts lines 205-231. -/
def updateUserConnection (s : ServerState) (roomId userId : String)
    (isConnected : Bool) (socketId : Option String) (now : Nat) :
    Option Room × ServerState :=
  match getRoomById s roomId with
  | none => (none, s)
  | some room =>
    if ¬ room.players.any (fun p => p.id == userId) then (some room, s)
    else
      let players := updateFirst (fun p => p.id == userId)
        (fun p => { p with
          isConnected := isConnected,
          socketId := if isConnected then socketId else none })
        room.players
      let room' := { room with players := players, updatedAt := now }
      (some room', { s with rooms := mapSet room.id room' s.rooms })

/-- getTimeRemaining, roomService.ts lines 256-268: fixed nominal durations
per status. -/
def getTimeRemaining (room : Room) : Option Nat :=
  match room.status with
  | RoomStatus.composing => some 300
  | RoomStatus.voting => some 120
  | _ => none

/-- getGameState, roomService.ts lines 238-249: a pure projection of the
room (no write to the stored state). -/
def getGameState (s : ServerState) (roomId : String) : Option GameState :=
  match getRoomById s roomId with
  | none => none
  | some room =>
    some { roomId := room.id, status := room.status, theme := room.theme,
           timeRemaining := getTimeRemaining room }

/-- One room entry under cleanupDisconnectedUsers, roomService.ts lines
275-298: drop disconnected players; when that changes the list, delete the
room if it became empty, else reassign the host to players[0] when the host
was dropped. -/
def cleanupEntry (now : Nat) (e : String × Room) : Option (String × Room) :=
  let room := e.2
  let updatedPlayers := room.players.filter (fun p => p.isConnected)
  if updatedPlayers.length = room.players.length then some e
  else
    match updatedPlayers with
    | [] => none
    | first :: rest =>
      let hostId :=
        if (first :: rest).any (fun p => p.id == room.hostId) then room.hostId
        else first.id
      some (e.1, { room with
        players := first :: rest, hostId := hostId, updatedAt := now })

/-- cleanupDisconnectedUsers, roomService.ts lines 274-299: sweep every
room entry; codes of deleted rooms are removed from roomsByCode. -/
def cleanupDisconnectedUsers (s : ServerState) (now : Nat) : ServerState :=
  let rooms' := s.rooms.filterMap (cleanupEntry now)
  let deletedCodes := (s.rooms.filter
    (fun e => (cleanupEntry now e).isNone)).map (fun e => e.2.code)
  { rooms := rooms',
    roomsByCode := s.roomsByCode.filter (fun ce => ¬ deletedCodes.contains ce.1) }

/-! ## The operation-level semantics -/

/-- One mutating call into the service, with all random draws and clock
reads as explicit data. -/
inductive Op where
  | create (host : User) (maxPlayers : Nat) (roomId roomCode : String) (now : Nat)
  | join (roomCode : String) (user : User) (now : Nat)
  | leave (roomCode userId : String) (now : Nat)
  | start (roomCode userId : String) (themeIdx : Fin 10) (now : Nat)
  | updateConn (roomId userId : String) (isConnected : Bool)
      (socketId : Option String) (now : Nat)
  | cleanup (now : Nat)
  deriving DecidableEq

/-- Apply one operation. The create case fires only for a fresh code and a
fresh id, which the source guarantees by the code retry loop and uuidv4. -/
def applyOp (s : ServerState) : Op → ServerState
  | Op.create host maxPlayers roomId roomCode now =>
    if mapGet roomCode s.roomsByCode = none ∧ mapGet roomId s.rooms = none then
      (createRoom s host maxPlayers roomId roomCode now).2
    else s
  | Op.join roomCode user now => (joinRoom s roomCode user now).2
  | Op.leave roomCode userId now => (leaveRoom s roomCode userId now).2
  | Op.start roomCode userId themeIdx now =>
    (startGame s roomCode userId themeIdx now).2
  | Op.updateConn roomId userId isConnected socketId now =>
    (updateUserConnection s roomId userId isConnected socketId now).2
  | Op.cleanup now => cleanupDisconnectedUsers s now

/-- The state reached from empty storage by a sequence of operations. -/
def run (ops : List Op) : ServerState :=
  ops.foldl applyOp initialState

/-! ## Concrete data for counterexamples and witnesses -/

/-- A connected user with id "a". -/
def userA : User := { id := "a", username := "Alice", isConnected := true }

/-- A connected user with id "b". -/
def userB : User := { id := "b", username := "Bob", isConnected := true }

/-- A two-player room reached by: create by userA, join by userB. -/
def stateTwoPlayers : ServerState :=
  run [Op.create userA 10 "r1" "ABC234" 0, Op.join "ABC234" userB 1]

example : (getRoomByCode stateTwoPlayers "ABC234").map
    (fun r => (r.status, r.hostId, r.players.map (fun p => p.id)))
    = some (RoomStatus.waiting, "a", ["a", "b"]) := by decide

/-- stateTwoPlayers after the game was started by the host. -/
def stateComposing : ServerState :=
  applyOp stateTwoPlayers (Op.start "ABC234" "a" 0 2)

example : (getRoomByCode stateComposing "ABC234").map (fun r => r.status)
    = some RoomStatus.composing := by decide

/-- stateTwoPlayers after userB disconnected. -/
def stateBDisconnected : ServerState :=
  applyOp stateTwoPlayers (Op.updateConn "r1" "b" false none 2)

example : (getRoomByCode stateBDisconnected "ABC234").map
    (fun r => r.players.map (fun p => (p.id, p.isConnected)))
    = some [("a", true), ("b", false)] := by decide

/-! ## Helper lemmas about updateFirst -/

theorem updateFirst_length (p : α → Bool) (f : α → α) (l : List α) :
    (updateFirst p f l).length = l.length := by
  induction l with
  | nil => rfl
  | cons x xs ih =>
    by_cases h : p x
    · simp [updateFirst, h]
    · simp [updateFirst, h, ih]

theorem updateFirst_map (p : α → Bool) (f : α → α) (g : α → β) (l : List α)
    (hf : ∀ x, p x = true → g (f x) = g x) :
    (updateFirst p f l).map g = l.map g := by
  induction l with
  | nil => rfl
  | cons x xs ih =>
    by_cases h : p x
    · simp [updateFirst, h, hf x h]
    · simp [updateFirst, h, ih]

theorem mem_updateFirst (p : α → Bool) (f : α → α) (l : List α) (x : α)
    (hx : x ∈ updateFirst p f l) :
    x ∈ l ∨ ∃ y, y ∈ l ∧ p y = true ∧ x = f y := by
  induction l with
  | nil => simp [updateFirst] at hx
  | cons z zs ih =>
    by_cases h : p z
    · simp only [updateFirst, if_pos h, List.mem_cons] at hx
      rcases hx with hx | hx
      · exact Or.inr ⟨z, List.mem_cons_self z zs, h, hx⟩
      · exact Or.inl (List.mem_cons_of_mem z hx)
    · simp only [updateFirst, if_neg h, List.mem_cons] at hx
      rcases hx with hx | hx
      · exact Or.inl (hx ▸ List.mem_cons_self z zs)
      · rcases ih hx with h1 | ⟨y, hy, hpy, hxy⟩
        · exact Or.inl (List.mem_cons_of_mem z h1)
        · exact Or.inr ⟨y, List.mem_cons_of_mem z hy, hpy, hxy⟩

/-! ## Helper lemmas about the association-list Maps -/

theorem mapGet_mem {m : List (String × α)} (h : mapGet k m = some v) :
    (k, v) ∈ m := by
  induction m with
  | nil => simp [mapGet] at h
  | cons e m ih =>
    by_cases he : e.1 = k
    · simp only [mapGet, if_pos he] at h
      cases h
      subst he
      exact List.mem_cons_self e m
    · simp only [mapGet, if_neg he] at h
      exact List.mem_cons_of_mem e (ih h)

theorem mapGet_of_mem_nodup {m : List (String × α)}
    (hnd : (m.map Prod.fst).Nodup) (h : (k, v) ∈ m) :
    mapGet k m = some v := by
  induction m with
  | nil => simp at h
  | cons e m ih =>
    rcases List.mem_cons.mp h with h | h
    · subst h
      simp [mapGet]
    · have hk : e.1 ≠ k := by
        intro hek
        have : e.1 ∈ m.map Prod.fst := by
          subst hek
          exact List.mem_map.mpr ⟨(e.1, v), h, rfl⟩
        exact (List.nodup_cons.mp hnd).1 this
      simp only [mapGet, if_neg hk]
      exact ih (List.nodup_cons.mp hnd).2 h

theorem mapGet_mapSet_self (k : String) (v : α) (m : List (String × α)) :
    mapGet k (mapSet k v m) = some v := by
  induction m with
  | nil => simp [mapGet, mapSet]
  | cons e m ih =>
    by_cases he : e.1 = k
    · simp [mapSet, if_pos he, mapGet]
    · simp [mapSet, if_neg he, mapGet, he, ih]

theorem mapGet_mapSet_ne (hk : k' ≠ k) (v : α) (m : List (String × α)) :
    mapGet k' (mapSet k v m) = mapGet k' m := by
  have hkk : ¬ k = k' := fun h => hk h.symm
  induction m with
  | nil =>
    simp only [mapSet, mapGet]
    rw [if_neg hkk]
  | cons e m ih =>
    by_cases he : e.1 = k
    · have he' : ¬ e.1 = k' := by
        rw [he]
        exact hkk
      simp only [mapSet, if_pos he, mapGet]
      rw [if_neg hkk, if_neg he']
    · simp only [mapSet, if_neg he, mapGet]
      by_cases he' : e.1 = k'
      · rw [if_pos he', if_pos he']
      · rw [if_neg he', if_neg he', ih]

theorem mem_mapSet {m : List (String × α)} (h : x ∈ mapSet k v m) :
    x = (k, v) ∨ x ∈ m := by
  induction m with
  | nil => simpa [mapSet] using h
  | cons e m ih =>
    by_cases he : e.1 = k
    · simp only [mapSet, if_pos he, List.mem_cons] at h
      rcases h with h | h
      · exact Or.inl h
      · exact Or.inr (List.mem_cons_of_mem e h)
    · simp only [mapSet, if_neg he, List.mem_cons] at h
      rcases h with h | h
      · exact Or.inr (h ▸ List.mem_cons_self e m)
      · rcases ih h with h | h
        · exact Or.inl h
        · exact Or.inr (List.mem_cons_of_mem e h)

theorem keys_mapSet (k : String) (v : α) (m : List (String × α)) :
    (mapSet k v m).map Prod.fst =
      if k ∈ m.map Prod.fst then m.map Prod.fst else m.map Prod.fst ++ [k] := by
  induction m with
  | nil => simp [mapSet]
  | cons e m ih =>
    by_cases he : e.1 = k
    · simp [mapSet, if_pos he, he]
    · have hne : ¬ k = e.1 := fun h => he h.symm
      by_cases hk : k ∈ m.map Prod.fst
      · simp [mapSet, if_neg he, ih, hk, hne]
      · simp [mapSet, if_neg he, ih, hk, hne]

theorem keys_mapSet_nodup (k : String) (v : α) {m : List (String × α)}
    (hnd : (m.map Prod.fst).Nodup) :
    ((mapSet k v m).map Prod.fst).Nodup := by
  rw [keys_mapSet]
  by_cases hk : k ∈ m.map Prod.fst
  · rwa [if_pos hk]
  · rw [if_neg hk]
    simp only [List.nodup_append, List.nodup_cons, List.not_mem_nil,
      not_false_iff, List.nodup_nil, and_true, true_and]
    refine ⟨hnd, ?_⟩
    intro a ha hb
    simp only [List.mem_singleton] at hb
    exact hk (hb ▸ ha)

theorem mapGet_mapDelete_self (k : String) (m : List (String × α)) :
    mapGet k (mapDelete k m) = none := by
  induction m with
  | nil => rfl
  | cons e m ih =>
    by_cases he : e.1 = k
    · simpa [mapDelete, he] using ih
    · simpa [mapDelete, he, mapGet] using ih

theorem mem_mapDelete {m : List (String × α)} (h : x ∈ mapDelete k m) :
    x ∈ m :=
  List.mem_of_mem_filter h

theorem keys_mapDelete_sublist (k : String) (m : List (String × α)) :
    ((mapDelete k m).map Prod.fst).Sublist (m.map Prod.fst) :=
  (List.filter_sublist m).map Prod.fst

theorem keys_filterMap_sublist (g : (String × Room) → Option (String × Room))
    (hkey : ∀ e e', g e = some e' → e'.1 = e.1) (m : List (String × Room)) :
    ((m.filterMap g).map Prod.fst).Sublist (m.map Prod.fst) := by
  induction m with
  | nil => simp
  | cons e m ih =>
    rw [List.filterMap_cons]
    cases hg : g e with
    | none =>
      exact ih.trans (List.sublist_cons_self e.1 (m.map Prod.fst))
    | some e' =>
      rw [List.map_cons, List.map_cons, hkey e e' hg]
      exact ih.cons₂ e.1

/-! ## The reachable-state invariant -/

/-- Position of a status along Waiting, Composing, Voting, Results. -/
def statusRank : RoomStatus → Nat
  | RoomStatus.waiting => 0
  | RoomStatus.composing => 1
  | RoomStatus.voting => 2
  | RoomStatus.results => 3

/-- Facts that hold of every stored room in every reachable state: only the
Waiting and Composing statuses ever occur (nothing in the service writes
Voting or Results), player ids are pairwise distinct, and the room is
never empty. -/
def RoomWF (r : Room) : Prop :=
  (r.status = RoomStatus.waiting ∨ r.status = RoomStatus.composing)
  ∧ (r.players.map (fun p => p.id)).Nodup
  ∧ 1 ≤ r.players.length

/-- Invariant of reachable server states: the rooms Map has distinct keys,
each entry is stored under its room's id, and every room is well formed. -/
def StateInv (s : ServerState) : Prop :=
  (s.rooms.map Prod.fst).Nodup
  ∧ ∀ e ∈ s.rooms, e.2.id = e.1 ∧ RoomWF e.2

theorem getRoomByCode_mapGet {s : ServerState} (hinv : StateInv s)
    (h : getRoomByCode s code = some room) :
    mapGet room.id s.rooms = some room ∧ RoomWF room := by
  rw [getRoomByCode] at h
  by_cases hv : isValidRoomCode code
  · rw [if_neg (by simpa using hv)] at h
    cases hc : mapGet code s.roomsByCode with
    | none => rw [hc] at h; cases h
    | some rid =>
      rw [hc] at h
      have hmem := mapGet_mem h
      have := hinv.2 (rid, room) hmem
      have hid : room.id = rid := this.1
      exact ⟨hid ▸ h, this.2⟩
  · rw [if_pos (by simpa using hv)] at h
    cases h

theorem getRoomById_mapGet {s : ServerState} (hinv : StateInv s)
    (h : getRoomById s roomId = some room) :
    mapGet room.id s.rooms = some room ∧ RoomWF room := by
  rw [getRoomById] at h
  have hmem := mapGet_mem h
  have := hinv.2 (roomId, room) hmem
  exact ⟨this.1 ▸ h, this.2⟩

/-- cleanupEntry keeps the key, the id, the status and the capacity of an
entry; it either returns the entry unchanged or keeps a nonempty selection
of its players. -/
theorem cleanupEntry_spec (now : Nat) (e e' : String × Room)
    (h : cleanupEntry now e = some e') :
    e'.1 = e.1 ∧ e'.2.id = e.2.id ∧ e'.2.status = e.2.status
    ∧ e'.2.maxPlayers = e.2.maxPlayers
    ∧ (e' = e ∨ (e'.2.players.Sublist e.2.players ∧ 1 ≤ e'.2.players.length)) := by
  rw [cleanupEntry] at h
  by_cases hlen :
      (e.2.players.filter (fun p => p.isConnected)).length = e.2.players.length
  · rw [if_pos hlen] at h
    cases h
    exact ⟨rfl, rfl, rfl, rfl, Or.inl rfl⟩
  · rw [if_neg hlen] at h
    cases hfil : e.2.players.filter (fun p => p.isConnected) with
    | nil => rw [hfil] at h; cases h
    | cons first rest =>
      rw [hfil] at h
      cases h
      refine ⟨rfl, rfl, rfl, rfl, Or.inr ⟨?_, by simp⟩⟩
      simpa [hfil] using List.filter_sublist (l := e.2.players)
        (p := fun p => p.isConnected)

/-- Effect of joinRoom on the stored state: either unchanged, or the found
Waiting non-full room is re-stored with players updated in place (same id
sequence) or with the new user appended (id previously absent). -/
theorem joinRoom_state (s : ServerState) (roomCode : String) (user : User)
    (now : Nat) :
    (joinRoom s roomCode user now).2 = s
    ∨ ∃ room players',
        getRoomByCode s roomCode = some room
        ∧ room.status = RoomStatus.waiting
        ∧ room.players.length < room.maxPlayers
        ∧ (players'.map (fun p => p.id) = room.players.map (fun p => p.id)
           ∨ (players'.map (fun p => p.id)
                = room.players.map (fun p => p.id) ++ [user.id]
              ∧ ∀ q ∈ room.players, ¬ q.id = user.id))
        ∧ room.players.length ≤ players'.length
        ∧ players'.length ≤ room.maxPlayers
        ∧ (joinRoom s roomCode user now).2 =
            { s with rooms := mapSet room.id
                               { room with players := players', updatedAt := now }
                               s.rooms } := by
  cases hfind : getRoomByCode s roomCode with
  | none =>
    left
    simp [joinRoom, hfind]
  | some room =>
    by_cases hcap : room.players.length ≥ room.maxPlayers
    · left
      simp [joinRoom, hfind, hcap]
    · by_cases hst : room.status = RoomStatus.waiting
      · have hst' : ¬ room.status ≠ RoomStatus.waiting := by simp [hst]
        by_cases hmem : room.players.any (fun p => p.id == user.id) = true
        · right
          refine ⟨room, updateFirst (fun p => p.id == user.id)
              (fun _ => { user with isConnected := true }) room.players,
            rfl, hst, Nat.lt_of_not_le hcap, ?_, ?_, ?_, ?_⟩
          · left
            apply updateFirst_map
            intro x hx
            simp only [beq_iff_eq] at hx
            simp [hx]
          · rw [updateFirst_length]
          · rw [updateFirst_length]
            exact Nat.le_of_not_lt (fun hlt => hcap (Nat.le_of_lt hlt))
          · simp [joinRoom, hfind, hcap, hst', hmem]
        · right
          refine ⟨room, room.players ++ [{ user with isConnected := true }],
            rfl, hst, Nat.lt_of_not_le hcap, ?_, ?_, ?_, ?_⟩
          · right
            refine ⟨by simp, ?_⟩
            intro q hq hqid
            exact hmem (List.any_eq_true.mpr ⟨q, hq, by simpa using hqid⟩)
          · simp
          · have := Nat.lt_of_not_le hcap
            simp only [List.length_append, List.length_cons, List.length_nil]
            omega
          · simp [joinRoom, hfind, hcap, hst', hmem]
      · left
        simp [joinRoom, hfind, hcap, hst]

/-- Effect of leaveRoom on the stored state: unchanged (no room, or the
user was not a member), full deletion of an emptied room, or the found
room re-stored with the departing member filtered out. -/
theorem leaveRoom_state (s : ServerState) (code uid : String) (now : Nat) :
    (leaveRoom s code uid now).2 = s
    ∨ (∃ room, getRoomByCode s code = some room
        ∧ room.players.any (fun p => p.id == uid) = true
        ∧ (room.players.filter (fun p => p.id != uid)).length = 0
        ∧ (leaveRoom s code uid now).2 =
            { rooms := mapDelete room.id s.rooms,
              roomsByCode := mapDelete room.code s.roomsByCode })
    ∨ (∃ room hostId', getRoomByCode s code = some room
        ∧ room.players.any (fun p => p.id == uid) = true
        ∧ (room.players.filter (fun p => p.id != uid)).length ≠ 0
        ∧ (leaveRoom s code uid now).2 =
            { s with rooms := mapSet room.id
                               { room with
                                 hostId := hostId',
                                 players := room.players.filter (fun p => p.id != uid),
                                 updatedAt := now }
                               s.rooms }) := by
  cases hfind : getRoomByCode s code with
  | none =>
    left
    simp [leaveRoom, hfind]
  | some room =>
    by_cases hmem : room.players.any (fun p => p.id == uid) = true
    · by_cases hempty : (room.players.filter (fun p => p.id != uid)).length = 0
      · right; left
        exact ⟨room, rfl, hmem, hempty, by simp [leaveRoom, hfind, hmem, hempty]⟩
      · right; right
        refine ⟨room,
          if room.hostId = uid ∧ room.players.length > 1 then
            match room.players.find? (fun p => p.id != uid && p.isConnected) with
            | some newHost => newHost.id
            | none => room.hostId
          else room.hostId,
          rfl, hmem, hempty, ?_⟩
        simp [leaveRoom, hfind, hmem, hempty]
    · left
      simp [leaveRoom, hfind, hmem]

/-- Effect of startGame on the stored state: unchanged, or the found room
re-stored with status Composing, a theme set, and players untouched. -/
theorem startGame_state (s : ServerState) (code uid : String)
    (themeIdx : Fin 10) (now : Nat) :
    (startGame s code uid themeIdx now).2 = s
    ∨ ∃ room t, getRoomByCode s code = some room
        ∧ room.hostId = uid
        ∧ 2 ≤ room.players.length
        ∧ (startGame s code uid themeIdx now).2 =
            { s with rooms := mapSet room.id
                               { room with
                                 status := RoomStatus.composing, theme := some t,
                                 updatedAt := now }
                               s.rooms } := by
  cases hfind : getRoomByCode s code with
  | none =>
    left
    simp [startGame, hfind]
  | some room =>
    by_cases hhost : room.hostId = uid
    · by_cases hcnt : room.players.length < 2
      · left
        simp [startGame, hfind, hhost, hcnt]
      · right
        exact ⟨room, themes.get (themeIdx.cast themes_length.symm), rfl, hhost,
          Nat.le_of_not_lt hcnt, by simp [startGame, hfind, hhost, hcnt]⟩
    · left
      simp [startGame, hfind, hhost]

/-- Effect of updateUserConnection on the stored state: unchanged, or the
found room re-stored with one player's connection fields rewritten in
place (ids and count untouched). -/
theorem updateUserConnection_state (s : ServerState) (roomId uid : String)
    (isC : Bool) (sockId : Option String) (now : Nat) :
    (updateUserConnection s roomId uid isC sockId now).2 = s
    ∨ ∃ room players', getRoomById s roomId = some room
        ∧ players'.map (fun p => p.id) = room.players.map (fun p => p.id)
        ∧ players'.length = room.players.length
        ∧ (updateUserConnection s roomId uid isC sockId now).2 =
            { s with rooms := mapSet room.id
                               { room with players := players', updatedAt := now }
                               s.rooms } := by
  cases hfind : getRoomById s roomId with
  | none =>
    left
    simp [updateUserConnection, hfind]
  | some room =>
    by_cases hmem : room.players.any (fun p => p.id == uid) = true
    · right
      refine ⟨room, updateFirst (fun p => p.id == uid)
          (fun p => { p with
            isConnected := isC, socketId := if isC then sockId else none })
          room.players,
        rfl, ?_, updateFirst_length _ _ _, ?_⟩
      · exact updateFirst_map _ _ _ _ (fun x _ => rfl)
      · simp [updateUserConnection, hfind, hmem]
    · left
      simp [updateUserConnection, hfind, hmem]

/-- Effect of cleanupDisconnectedUsers on the rooms Map. -/
theorem cleanup_rooms (s : ServerState) (now : Nat) :
    (cleanupDisconnectedUsers s now).rooms
      = s.rooms.filterMap (cleanupEntry now) := rfl

theorem stateInv_set {s : ServerState} (hinv : StateInv s) (k : String)
    (room' : Room) (hid : room'.id = k) (hwf : RoomWF room') :
    StateInv { s with rooms := mapSet k room' s.rooms } := by
  refine ⟨keys_mapSet_nodup _ _ hinv.1, ?_⟩
  intro e he
  rcases mem_mapSet he with h | h
  · subst h
    exact ⟨hid, hwf⟩
  · exact hinv.2 e h

theorem stateInv_delete {s : ServerState} (hinv : StateInv s) (k : String)
    (m2 : List (String × String)) :
    StateInv { rooms := mapDelete k s.rooms, roomsByCode := m2 } :=
  ⟨List.Nodup.sublist (keys_mapDelete_sublist k s.rooms) hinv.1,
   fun e he => hinv.2 e (mem_mapDelete he)⟩

theorem stateInv_applyOp {s : ServerState} (hinv : StateInv s) (op : Op) :
    StateInv (applyOp s op) := by
  cases op with
  | create host mp rid code now =>
    by_cases hg : mapGet code s.roomsByCode = none ∧ mapGet rid s.rooms = none
    · rw [applyOp, if_pos hg]
      exact stateInv_set hinv rid _ rfl ⟨Or.inl rfl, by simp, by simp⟩
    · rw [applyOp, if_neg hg]
      exact hinv
  | join code user now =>
    show StateInv (joinRoom s code user now).2
    rcases joinRoom_state s code user now with h |
      ⟨room, players', hfind, hst, hcap, hids, hlen1, hlen2, heq⟩
    · rw [h]
      exact hinv
    · rw [heq]
      have hroom := getRoomByCode_mapGet hinv hfind
      refine stateInv_set hinv room.id _ rfl ⟨hroom.2.1, ?_, ?_⟩
      · show (players'.map (fun p => p.id)).Nodup
        rcases hids with h | ⟨h, hnin⟩
        · rw [h]
          exact hroom.2.2.1
        · rw [h]
          simp only [List.nodup_append, List.nodup_cons, List.not_mem_nil,
            not_false_iff, List.nodup_nil, and_true, true_and]
          refine ⟨hroom.2.2.1, ?_⟩
          intro a ha hb
          simp only [List.mem_singleton] at hb
          subst hb
          rcases List.mem_map.mp ha with ⟨q, hq, hqid⟩
          exact hnin q hq hqid
      · show 1 ≤ players'.length
        exact le_trans hroom.2.2.2 hlen1
  | leave code uid now =>
    show StateInv (leaveRoom s code uid now).2
    rcases leaveRoom_state s code uid now with h |
      ⟨room, hfind, hmem, hempty, heq⟩ |
      ⟨room, hostId', hfind, hmem, hempty, heq⟩
    · rw [h]
      exact hinv
    · rw [heq]
      exact stateInv_delete hinv room.id _
    · rw [heq]
      have hroom := getRoomByCode_mapGet hinv hfind
      refine stateInv_set hinv room.id _ rfl ⟨hroom.2.1, ?_, ?_⟩
      · show ((room.players.filter (fun p => p.id != uid)).map
            (fun p => p.id)).Nodup
        exact List.Nodup.sublist
          ((List.filter_sublist room.players).map (fun p => p.id))
          hroom.2.2.1
      · show 1 ≤ (room.players.filter (fun p => p.id != uid)).length
        exact Nat.pos_of_ne_zero hempty
  | start code uid themeIdx now =>
    show StateInv (startGame s code uid themeIdx now).2
    rcases startGame_state s code uid themeIdx now with h |
      ⟨room, t, hfind, hhost, hcnt, heq⟩
    · rw [h]
      exact hinv
    · rw [heq]
      have hroom := getRoomByCode_mapGet hinv hfind
      exact stateInv_set hinv room.id _ rfl
        ⟨Or.inr rfl, hroom.2.2.1, hroom.2.2.2⟩
  | updateConn roomId uid isC sockId now =>
    show StateInv (updateUserConnection s roomId uid isC sockId now).2
    rcases updateUserConnection_state s roomId uid isC sockId now with h |
      ⟨room, players', hfind, hids, hlen, heq⟩
    · rw [h]
      exact hinv
    · rw [heq]
      have hroom := getRoomById_mapGet hinv hfind
      refine stateInv_set hinv room.id _ rfl ⟨hroom.2.1, ?_, ?_⟩
      · show (players'.map (fun p => p.id)).Nodup
        rw [hids]
        exact hroom.2.2.1
      · show 1 ≤ players'.length
        rw [hlen]
        exact hroom.2.2.2
  | cleanup now =>
    show StateInv (cleanupDisconnectedUsers s now)
    have hkey : ∀ e e', cleanupEntry now e = some e' → e'.1 = e.1 :=
      fun e e' h => (cleanupEntry_spec now e e' h).1
    constructor
    · rw [cleanup_rooms]
      exact List.Nodup.sublist (keys_filterMap_sublist _ hkey _) hinv.1
    · intro e he
      rw [cleanup_rooms] at he
      rcases List.mem_filterMap.mp he with ⟨a, ha, hg⟩
      obtain ⟨hk, hid, hst, hmax, hrest⟩ := cleanupEntry_spec now a e hg
      have hainv := hinv.2 a ha
      refine ⟨hid.trans (hainv.1.trans hk.symm), ?_, ?_, ?_⟩
      · rw [hst]
        exact hainv.2.1
      · rcases hrest with rfl | ⟨hsub, hlen⟩
        · exact hainv.2.2.1
        · exact List.Nodup.sublist (hsub.map (fun p => p.id)) hainv.2.2.1
      · rcases hrest with rfl | ⟨hsub, hlen⟩
        · exact hainv.2.2.2
        · exact hlen

theorem stateInv_foldl {s : ServerState} (hinv : StateInv s) (ops : List Op) :
    StateInv (ops.foldl applyOp s) := by
  induction ops generalizing s with
  | nil => exact hinv
  | cons op ops ih => exact ih (stateInv_applyOp hinv op)

/-- Every reachable server state satisfies the invariant. -/
theorem stateInv_run (ops : List Op) : StateInv (run ops) :=
  stateInv_foldl ⟨by simp [initialState], by simp [initialState]⟩ ops

/-! ## Status monotonicity -/

theorem mono_set {s : ServerState} {id : String} {r r' room room' : Room}
    (hget : mapGet room.id s.rooms = some room)
    (h : mapGet id s.rooms = some r)
    (h' : mapGet id (mapSet room.id room' s.rooms) = some r')
    (hstat : statusRank room.status ≤ statusRank room'.status) :
    statusRank r.status ≤ statusRank r'.status := by
  by_cases hid : id = room.id
  · subst hid
    have hr : r = room := Option.some.inj (h.symm.trans hget)
    have hr' : r' = room' :=
      Option.some.inj (h'.symm.trans (mapGet_mapSet_self room.id room' s.rooms))
    rw [hr, hr']
    exact hstat
  · rw [mapGet_mapSet_ne hid room' s.rooms] at h'
    rw [Option.some.inj (h'.symm.trans h)]

/-- No single service call ever lowers the statusRank of a stored room
(given the reachable-state invariant). -/
theorem statusRank_mono_applyOp {s : ServerState} (hinv : StateInv s) (op : Op)
    (id : String) (r r' : Room)
    (h : mapGet id s.rooms = some r)
    (h' : mapGet id (applyOp s op).rooms = some r') :
    statusRank r.status ≤ statusRank r'.status := by
  cases op with
  | create host mp rid code now =>
    by_cases hg : mapGet code s.roomsByCode = none ∧ mapGet rid s.rooms = none
    · rw [applyOp, if_pos hg] at h'
      simp only [createRoom] at h'
      by_cases hid : id = rid
      · subst hid
        rw [hg.2] at h
        cases h
      · rw [mapGet_mapSet_ne hid _ _] at h'
        rw [Option.some.inj (h'.symm.trans h)]
    · rw [applyOp, if_neg hg] at h'
      rw [Option.some.inj (h'.symm.trans h)]
  | join code user now =>
    simp only [applyOp] at h'
    rcases joinRoom_state s code user now with heq |
      ⟨room, players', hfind, _, _, _, _, _, heq⟩
    · rw [heq] at h'
      rw [Option.some.inj (h'.symm.trans h)]
    · rw [heq] at h'
      exact mono_set (getRoomByCode_mapGet hinv hfind).1 h h' (Nat.le_refl _)
  | leave code uid now =>
    simp only [applyOp] at h'
    rcases leaveRoom_state s code uid now with heq |
      ⟨room, hfind, hmem, hempty, heq⟩ |
      ⟨room, hostId', hfind, hmem, hempty, heq⟩
    · rw [heq] at h'
      rw [Option.some.inj (h'.symm.trans h)]
    · rw [heq] at h'
      have hmem' := mem_mapDelete (mapGet_mem h')
      have := mapGet_of_mem_nodup hinv.1 hmem'
      rw [Option.some.inj (this.symm.trans h)]
    · rw [heq] at h'
      exact mono_set (getRoomByCode_mapGet hinv hfind).1 h h' (Nat.le_refl _)
  | start code uid themeIdx now =>
    simp only [applyOp] at h'
    rcases startGame_state s code uid themeIdx now with heq |
      ⟨room, t, hfind, hhost, hcnt, heq⟩
    · rw [heq] at h'
      rw [Option.some.inj (h'.symm.trans h)]
    · rw [heq] at h'
      have hroom := getRoomByCode_mapGet hinv hfind
      refine mono_set hroom.1 h h' ?_
      rcases hroom.2.1 with hw | hc
      · rw [hw]
        exact Nat.zero_le _
      · rw [hc]
  | updateConn roomId uid isC sockId now =>
    simp only [applyOp] at h'
    rcases updateUserConnection_state s roomId uid isC sockId now with heq |
      ⟨room, players', hfind, hids, hlen, heq⟩
    · rw [heq] at h'
      rw [Option.some.inj (h'.symm.trans h)]
    · rw [heq] at h'
      exact mono_set (getRoomById_mapGet hinv hfind).1 h h' (Nat.le_refl _)
  | cleanup now =>
    simp only [applyOp] at h'
    rw [cleanup_rooms] at h'
    rcases List.mem_filterMap.mp (mapGet_mem h') with ⟨a, ha, hg⟩
    obtain ⟨hk, hid, hst, hmax, hrest⟩ := cleanupEntry_spec now a (id, r') hg
    have hk' : id = a.1 := hk
    have hget : mapGet id s.rooms = some a.2 := by
      rw [hk']
      exact mapGet_of_mem_nodup hinv.1 ha
    have hra : a.2 = r := Option.some.inj (hget.symm.trans h)
    have : r'.status = r.status := by
      rw [← hra]
      exact hst
    rw [this]

/-! ## Capacity invariant -/

theorem getRoomByCode_mem {s : ServerState}
    (h : getRoomByCode s code = some room) : ∃ k, (k, room) ∈ s.rooms := by
  rw [getRoomByCode] at h
  by_cases hv : isValidRoomCode code
  · rw [if_neg (by simpa using hv)] at h
    cases hc : mapGet code s.roomsByCode with
    | none => rw [hc] at h; cases h
    | some rid =>
      rw [hc] at h
      exact ⟨rid, mapGet_mem h⟩
  · rw [if_pos (by simpa using hv)] at h
    cases h

/-- An operation respects capacity as long as any created room has room for
its host (the source defaults maxPlayers to 10). -/
def Op.capOK : Op → Prop
  | Op.create _ mp _ _ _ => 1 ≤ mp
  | _ => True

/-- No stored room ever holds more players than its maxPlayers. -/
def CapInv (s : ServerState) : Prop :=
  ∀ e ∈ s.rooms, e.2.players.length ≤ e.2.maxPlayers

theorem capInv_applyOp {s : ServerState} (hcap : CapInv s) (op : Op)
    (hop : op.capOK) : CapInv (applyOp s op) := by
  cases op with
  | create host mp rid code now =>
    by_cases hg : mapGet code s.roomsByCode = none ∧ mapGet rid s.rooms = none
    · rw [applyOp, if_pos hg]
      intro e he
      rcases mem_mapSet he with h | h
      · subst h
        exact hop
      · exact hcap e h
    · rw [applyOp, if_neg hg]
      exact hcap
  | join code user now =>
    show CapInv (joinRoom s code user now).2
    rcases joinRoom_state s code user now with h |
      ⟨room, players', hfind, hst, hlt, hids, hlen1, hlen2, heq⟩
    · rw [h]
      exact hcap
    · rw [heq]
      intro e he
      rcases mem_mapSet he with h | h
      · subst h
        exact hlen2
      · exact hcap e h
  | leave code uid now =>
    show CapInv (leaveRoom s code uid now).2
    rcases leaveRoom_state s code uid now with h |
      ⟨room, hfind, hmem, hempty, heq⟩ |
      ⟨room, hostId', hfind, hmem, hempty, heq⟩
    · rw [h]
      exact hcap
    · rw [heq]
      intro e he
      exact hcap e (mem_mapDelete he)
    · rw [heq]
      intro e he
      rcases mem_mapSet he with h | h
      · subst h
        rcases getRoomByCode_mem hfind with ⟨k, hk⟩
        exact le_trans ((List.filter_sublist room.players).length_le) (hcap _ hk)
      · exact hcap e h
  | start code uid themeIdx now =>
    show CapInv (startGame s code uid themeIdx now).2
    rcases startGame_state s code uid themeIdx now with h |
      ⟨room, t, hfind, hhost, hcnt, heq⟩
    · rw [h]
      exact hcap
    · rw [heq]
      intro e he
      rcases mem_mapSet he with h | h
      · subst h
        show room.players.length ≤ room.maxPlayers
        rcases getRoomByCode_mem hfind with ⟨k, hk⟩
        exact hcap _ hk
      · exact hcap e h
  | updateConn roomId uid isC sockId now =>
    show CapInv (updateUserConnection s roomId uid isC sockId now).2
    rcases updateUserConnection_state s roomId uid isC sockId now with h |
      ⟨room, players', hfind, hids, hlen, heq⟩
    · rw [h]
      exact hcap
    · rw [heq]
      intro e he
      rcases mem_mapSet he with h | h
      · subst h
        show players'.length ≤ room.maxPlayers
        rw [hlen]
        exact hcap _ (mapGet_mem hfind)
      · exact hcap e h
  | cleanup now =>
    show CapInv (cleanupDisconnectedUsers s now)
    intro e he
    rw [cleanup_rooms] at he
    rcases List.mem_filterMap.mp he with ⟨a, ha, hg⟩
    obtain ⟨hk, hid, hst, hmax, hrest⟩ := cleanupEntry_spec now a e hg
    rw [hmax]
    rcases hrest with rfl | ⟨hsub, hlen⟩
    · exact hcap _ ha
    · exact le_trans hsub.length_le (hcap _ ha)

theorem capInv_foldl {s : ServerState} (hcap : CapInv s) (ops : List Op)
    (hops : ∀ op ∈ ops, op.capOK) : CapInv (ops.foldl applyOp s) := by
  induction ops generalizing s with
  | nil => exact hcap
  | cons op ops ih =>
    exact ih (capInv_applyOp hcap op (hops op (List.mem_cons_self op ops)))
      (fun o ho => hops o (List.mem_cons_of_mem op ho))

theorem capInv_run (ops : List Op) (hops : ∀ op ∈ ops, op.capOK) :
    CapInv (run ops) :=
  capInv_foldl (by simp [initialState, CapInv]) ops hops

/-- With distinct player ids, removing uid empties the member list exactly
when uid was the sole member. -/
theorem filter_ne_length_zero_iff (l : List User) (uid : String)
    (hnd : (l.map (fun p => p.id)).Nodup)
    (hmem : l.any (fun p => p.id == uid) = true) :
    (l.filter (fun p => p.id != uid)).length = 0 ↔ l.length = 1 := by
  cases l with
  | nil => simp at hmem
  | cons a t =>
    cases t with
    | nil =>
      rcases List.any_eq_true.mp hmem with ⟨x, hx, hxid⟩
      simp only [List.mem_singleton] at hx
      subst hx
      simp only [beq_iff_eq] at hxid
      simp [hxid]
    | cons b t' =>
      constructor
      · intro hzero
        exfalso
        have hall := List.filter_eq_nil_iff.mp (List.length_eq_zero.mp hzero)
        have ha : a.id = uid := by
          have := hall a (List.mem_cons_self a (b :: t'))
          simpa using this
        have hb : b.id = uid := by
          have := hall b (List.mem_cons_of_mem a (List.mem_cons_self b t'))
          simpa using this
        have : a.id ∈ (b :: t').map (fun p => p.id) := by
          rw [ha, ← hb]
          exact List.mem_map.mpr ⟨b, List.mem_cons_self b t', rfl⟩
        exact (List.nodup_cons.mp hnd).1 this
      · intro hone
        simp at hone


/-! ## Concrete rooms for witnesses -/

/-- The room stored in stateTwoPlayers. -/
def roomTwoPlayers : Room :=
  { id := "r1", code := "ABC234", status := RoomStatus.waiting, hostId := "a",
    players := [userA, userB], maxPlayers := 10, createdAt := 0, updatedAt := 1 }

example : getRoomByCode stateTwoPlayers "ABC234" = some roomTwoPlayers := by decide

/-- userB after disconnecting. -/
def userBDisc : User := { userB with isConnected := false }

/-- The room stored in stateBDisconnected. -/
def roomBDisc : Room :=
  { roomTwoPlayers with players := [userA, userBDisc], updatedAt := 2 }

example : getRoomByCode stateBDisconnected "ABC234" = some roomBDisc := by decide

/-- The room stored in stateComposing. -/
def roomComposing : Room :=
  { roomTwoPlayers with
    status := RoomStatus.composing, theme := some "Space Adventure",
    updatedAt := 2 }

example : getRoomByCode stateComposing "ABC234" = some roomComposing := by decide

/-- A one-member room at full capacity 1, reached by a single create. -/
def stateFull : ServerState := run [Op.create userA 1 "r1" "ABC234" 0]

/-- A one-member room with the default capacity, reached by a single create. -/
def stateSolo : ServerState := run [Op.create userA 10 "r1" "ABC234" 0]

/-! ## Claims -/

/-- C5 (amended: the alphabet has 32 symbols, not 33): generateRoomCode
always returns a string of exactly 6 characters, each drawn from the fixed
32-symbol alphabet that excludes the visually ambiguous glyphs 0, 1, I and
O, and every generated code passes isValidRoomCode. (Uniformity of the
per-position draw is a distributional fact about Math.random and is outside
the functional embedding; each position is an arbitrary draw from the
alphabet here.) -/
theorem claim_C5 (rand : Fin 6 → Fin 32) :
    (generateRoomCode rand).length = 6
    ∧ isValidRoomCode (generateRoomCode rand) = true
    ∧ (∀ c ∈ (generateRoomCode rand).toList, c ∈ roomCodeAlphabet)
    ∧ roomCodeAlphabet.length = 32
    ∧ roomCodeAlphabet.Nodup
    ∧ '0' ∉ roomCodeAlphabet ∧ '1' ∉ roomCodeAlphabet
    ∧ 'I' ∉ roomCodeAlphabet ∧ 'O' ∉ roomCodeAlphabet := by
  have hchars : ∀ c ∈ (generateRoomCode rand).toList, c ∈ roomCodeAlphabet := by
    intro c hc
    have hc' : c ∈ (List.finRange 6).map (fun i =>
        roomCodeAlphabet.get ((rand i).cast roomCodeAlphabet_length.symm)) := hc
    rcases List.mem_map.mp hc' with ⟨i, _, hci⟩
    rw [← hci]
    exact roomCodeAlphabet.get_mem _ _
  have hlen : (generateRoomCode rand).length = 6 := by
    show ((List.finRange 6).map _).length = 6
    simp
  have hall : ∀ c ∈ roomCodeAlphabet, isUpperAlphaNum c = true := by decide
  refine ⟨hlen, ?_, hchars, by decide, by decide, by decide, by decide,
    by decide, by decide⟩
  rw [isValidRoomCode]
  simp only [Bool.and_eq_true, beq_iff_eq, List.all_eq_true]
  exact ⟨hlen, fun c hc => hall c (hchars c hc)⟩

/-- C5 counterexample: the claim says the alphabet has 33 symbols; the fixed
alphabet of generateRoomCode has exactly 32 distinct symbols. -/
theorem claim_C5_counterexample :
    roomCodeAlphabet.length = 32 ∧ ¬ roomCodeAlphabet.length = 33 ∧
      roomCodeAlphabet.Nodup := by decide

/-- C5 witness at a concrete draw. -/
theorem claim_C5_witness :
    (generateRoomCode (fun _ => 0)).length = 6
    ∧ isValidRoomCode (generateRoomCode (fun _ => 0)) = true
    ∧ 'A' ∈ roomCodeAlphabet :=
  ⟨(claim_C5 (fun _ => 0)).1, (claim_C5 (fun _ => 0)).2.1,
   (claim_C5 (fun _ => 0)).2.2.1 'A' (by decide)⟩

/-- C8: for every 6-character input, formatRoomCode inserts the separator
after the 3rd character; every other input (including the empty string the
falsy guard catches) is returned unchanged, and in particular
formatRoomCode "AB" = "AB". -/
theorem claim_C8 :
    (∀ code : String, code.length = 6 →
      formatRoomCode code =
        String.mk (code.toList.take 3) ++ " " ++ String.mk (code.toList.drop 3))
    ∧ (∀ code : String, code.length ≠ 6 → formatRoomCode code = code)
    ∧ formatRoomCode "AB" = "AB" := by
  refine ⟨?_, ?_, by decide⟩
  · intro code h
    have hne : ¬ (code = "" ∨ code.length ≠ 6) := by
      push_neg
      refine ⟨?_, h⟩
      intro hc
      rw [hc] at h
      simp at h
    rw [formatRoomCode, if_neg hne]
  · intro code h
    rw [formatRoomCode, if_pos (Or.inr h)]

/-- C8 witness at concrete inputs. -/
theorem claim_C8_witness :
    formatRoomCode "ABC123" =
      String.mk ("ABC123".toList.take 3) ++ " " ++ String.mk ("ABC123".toList.drop 3)
    ∧ formatRoomCode "AB" = "AB" :=
  ⟨claim_C8.1 "ABC123" (by decide), claim_C8.2.2⟩

/-- C6: leaveRoom on an existing room with an absent user id is a success
returning the room with the state unchanged; updateUserConnection for an
unknown user in an existing room likewise; only an absent room yields the
not-found result (none) on these paths. -/
theorem claim_C6 :
    (∀ (s : ServerState) (code uid : String) (now : Nat) (room : Room),
      getRoomByCode s code = some room →
      room.players.any (fun p => p.id == uid) = false →
      leaveRoom s code uid now = (some room, s))
    ∧ (∀ (s : ServerState) (roomId uid : String) (isC : Bool)
        (sockId : Option String) (now : Nat) (room : Room),
      getRoomById s roomId = some room →
      room.players.any (fun p => p.id == uid) = false →
      updateUserConnection s roomId uid isC sockId now = (some room, s))
    ∧ (∀ (s : ServerState) (code uid : String) (now : Nat),
      getRoomByCode s code = none → leaveRoom s code uid now = (none, s))
    ∧ (∀ (s : ServerState) (roomId uid : String) (isC : Bool)
        (sockId : Option String) (now : Nat),
      getRoomById s roomId = none →
      updateUserConnection s roomId uid isC sockId now = (none, s)) := by
  refine ⟨?_, ?_, ?_, ?_⟩
  · intro s code uid now room hfind habs
    simp [leaveRoom, hfind, habs]
  · intro s roomId uid isC sockId now room hfind habs
    simp [updateUserConnection, hfind, habs]
  · intro s code uid now hfind
    simp [leaveRoom, hfind]
  · intro s roomId uid isC sockId now hfind
    simp [updateUserConnection, hfind]

/-- C6 witness at concrete inputs: user "z" is in no room. -/
theorem claim_C6_witness :
    leaveRoom stateTwoPlayers "ABC234" "z" 5 = (some roomTwoPlayers, stateTwoPlayers)
    ∧ updateUserConnection stateTwoPlayers "r1" "z" true none 5
        = (some roomTwoPlayers, stateTwoPlayers)
    ∧ leaveRoom stateTwoPlayers "ZZZZZZ" "a" 5 = (none, stateTwoPlayers) :=
  ⟨claim_C6.1 stateTwoPlayers "ABC234" "z" 5 roomTwoPlayers (by decide) (by decide),
   claim_C6.2.1 stateTwoPlayers "r1" "z" true none 5 roomTwoPlayers
     (by decide) (by decide),
   claim_C6.2.2.1 stateTwoPlayers "ZZZZZZ" "a" 5 (by decide)⟩

/-- C7: getGameState is a pure projection of the stored room (it writes
nothing back: the embedding returns only the view), and timeRemaining is
computed from status alone: the constant 300 for Composing, the constant
120 for Voting, absent for Waiting and Results; two rooms agreeing on
status get the same timeRemaining whatever their updatedAt. -/
theorem claim_C7 :
    (∀ (s : ServerState) (roomId : String),
      getGameState s roomId = (getRoomById s roomId).map
        (fun room => { roomId := room.id, status := room.status,
                       theme := room.theme,
                       timeRemaining := getTimeRemaining room }))
    ∧ (∀ r1 r2 : Room, r1.status = r2.status →
        getTimeRemaining r1 = getTimeRemaining r2)
    ∧ (∀ room : Room,
        (room.status = RoomStatus.composing → getTimeRemaining room = some 300)
        ∧ (room.status = RoomStatus.voting → getTimeRemaining room = some 120)
        ∧ (room.status = RoomStatus.waiting ∨ room.status = RoomStatus.results →
            getTimeRemaining room = none)) := by
  refine ⟨?_, ?_, ?_⟩
  · intro s roomId
    cases h : getRoomById s roomId with
    | none => simp [getGameState, h]
    | some room => simp [getGameState, h]
  · intro r1 r2 h
    rw [getTimeRemaining, getTimeRemaining, h]
  · intro room
    refine ⟨?_, ?_, ?_⟩
    · intro h
      simp [getTimeRemaining, h]
    · intro h
      simp [getTimeRemaining, h]
    · intro h
      rcases h with h | h <;> simp [getTimeRemaining, h]

/-- C7 witness at concrete rooms. -/
theorem claim_C7_witness :
    getTimeRemaining roomComposing = some 300
    ∧ getTimeRemaining roomTwoPlayers = none
    ∧ getTimeRemaining roomComposing = getTimeRemaining roomComposing :=
  ⟨(claim_C7.2.2 roomComposing).1 (by decide),
   (claim_C7.2.2 roomTwoPlayers).2.2 (Or.inl (by decide)),
   claim_C7.2.1 roomComposing roomComposing (by decide)⟩


/-- With distinct ids, after the in-place update of joinRoom the member
carrying the joining user's id is marked connected. -/
theorem updateFirst_connected (l : List User) (u : User)
    (hnd : (l.map (fun p => p.id)).Nodup) :
    ∀ p ∈ updateFirst (fun q => q.id == u.id)
        (fun _ => { u with isConnected := true }) l,
      p.id = u.id → p.isConnected = true := by
  induction l with
  | nil =>
    intro p hp
    simp [updateFirst] at hp
  | cons x xs ih =>
    intro p hp hpid
    by_cases hx : (x.id == u.id) = true
    · rw [updateFirst, if_pos hx] at hp
      rcases List.mem_cons.mp hp with rfl | hp'
      · rfl
      · exfalso
        have hxid : x.id = u.id := by simpa using hx
        have : x.id ∈ xs.map (fun q => q.id) := by
          rw [hxid, ← hpid]
          exact List.mem_map.mpr ⟨p, hp', rfl⟩
        exact (List.nodup_cons.mp hnd).1 this
    · rw [updateFirst, if_neg hx] at hp
      rcases List.mem_cons.mp hp with rfl | hp'
      · exact absurd (by simpa using hpid) hx
      · exact ih (List.nodup_cons.mp hnd).2 p hp' hpid

/-- C9: after every successful joinRoom, the member of the resulting room
whose id equals the joining user's id has isConnected = true, on both the
first-join and the existing-member paths (stated with the distinct-id
invariant that holds in every reachable room). -/
theorem claim_C9 (s : ServerState) (roomCode : String) (user : User) (now : Nat)
    (room room' : Room) (s' : ServerState)
    (hfind : getRoomByCode s roomCode = some room)
    (hnd : (room.players.map (fun p => p.id)).Nodup)
    (hjoin : joinRoom s roomCode user now = (some room', s')) :
    room'.players.all (fun p => p.id != user.id || p.isConnected) = true := by
  simp only [joinRoom, hfind] at hjoin
  by_cases hcap : room.players.length ≥ room.maxPlayers
  · rw [if_pos hcap] at hjoin
    cases hjoin
  · rw [if_neg hcap] at hjoin
    by_cases hst : room.status ≠ RoomStatus.waiting
    · rw [if_pos hst] at hjoin
      cases hjoin
    · rw [if_neg hst] at hjoin
      by_cases hmem : room.players.any (fun q => q.id == user.id) = true
      · simp only [if_pos hmem] at hjoin
        injection hjoin with h1 h2
        injection h1 with h1
        subst h1
        rw [List.all_eq_true]
        intro p hp
        by_cases hpid : p.id = user.id
        · have := updateFirst_connected room.players user hnd p hp hpid
          simp [this]
        · simp [hpid]
      · simp only [if_neg hmem] at hjoin
        injection hjoin with h1 h2
        injection h1 with h1
        subst h1
        have hmem' : room.players.any (fun q => q.id == user.id) = false :=
          Bool.eq_false_iff.mpr hmem
        have habs := List.any_eq_false.mp hmem'
        rw [List.all_eq_true]
        intro p hp
        rcases List.mem_append.mp hp with hp' | hp'
        · have : ¬ (p.id == user.id) = true := habs p hp'
          simp only [Bool.or_eq_true, bne_iff_ne, ne_eq]
          left
          simpa using this
        · simp only [List.mem_singleton] at hp'
          subst hp'
          simp

/-- The room stored after userBDisc rejoins stateBDisconnected. -/
def roomRejoined : Room := { roomTwoPlayers with updatedAt := 3 }

/-- The server state after userBDisc rejoins stateBDisconnected. -/
def stateAfterRejoin : ServerState :=
  ⟨[("r1", roomRejoined)], [("ABC234", "r1")]⟩

/-- C9 witness: userB rejoins while flagged disconnected and comes back
marked connected. -/
theorem claim_C9_witness :
    roomRejoined.players.all
      (fun p => p.id != userBDisc.id || p.isConnected) = true :=
  claim_C9 stateBDisconnected "ABC234" userBDisc 3 roomBDisc roomRejoined
    stateAfterRejoin (by decide) (by decide) (by decide)

/-- C3 counterexample: in a full room (capacity 1) the sole member's id is
already present, yet joinRoom fails instead of refreshing in place; the
claim's unconditional success is false. -/
theorem claim_C3_counterexample :
    (getRoomByCode stateFull "ABC234").map (fun r => r.players.map (fun p => p.id))
      = some ["a"]
    ∧ joinRoom stateFull "ABC234" userA 1 = (none, stateFull) := by decide

/-- C3 (amended: provided the room is in Waiting status and below capacity):
joinRoom with a user id already among the members succeeds by replacing that
member in place, leaving the member count and the id sequence unchanged —
no duplicate is appended. -/
theorem claim_C3 (s : ServerState) (roomCode : String) (user : User) (now : Nat)
    (room : Room)
    (hfind : getRoomByCode s roomCode = some room)
    (hcap : room.players.length < room.maxPlayers)
    (hwait : room.status = RoomStatus.waiting)
    (hmem : room.players.any (fun p => p.id == user.id) = true) :
    joinRoom s roomCode user now =
      (some { room with
              players := updateFirst (fun p => p.id == user.id)
                           (fun _ => { user with isConnected := true })
                           room.players,
              updatedAt := now },
       { s with rooms := mapSet room.id
                           { room with
                             players := updateFirst (fun p => p.id == user.id)
                                          (fun _ => { user with isConnected := true })
                                          room.players,
                             updatedAt := now }
                           s.rooms })
    ∧ (updateFirst (fun p => p.id == user.id)
        (fun _ => { user with isConnected := true }) room.players).length
        = room.players.length
    ∧ (updateFirst (fun p => p.id == user.id)
        (fun _ => { user with isConnected := true }) room.players).map
          (fun p => p.id)
        = room.players.map (fun p => p.id) := by
  have hcap' : ¬ room.players.length ≥ room.maxPlayers := Nat.not_le.mpr hcap
  have hst' : ¬ room.status ≠ RoomStatus.waiting := by simp [hwait]
  refine ⟨?_, updateFirst_length _ _ _, ?_⟩
  · simp [joinRoom, hfind, hcap', hst', hmem]
  · apply updateFirst_map
    intro x hx
    simpa using (beq_iff_eq.mp hx).symm

/-- C3 witness: the disconnected userB resyncs into the two-player room. -/
theorem claim_C3_witness :
    (updateFirst (fun p => p.id == userBDisc.id)
        (fun _ => { userBDisc with isConnected := true })
        roomBDisc.players).length = roomBDisc.players.length :=
  (claim_C3 stateBDisconnected "ABC234" userBDisc 3 roomBDisc (by decide)
    (by decide) (by decide) (by decide)).2.1

/-- C1 counterexample: host userA leaves while the only other member is
disconnected; no fallback fires, hostId remains the departed "a", which is
no longer among the members — both the claimed fallback and the claimed
invariant fail. -/
theorem claim_C1_counterexample :
    (leaveRoom stateBDisconnected "ABC234" "a" 9).1.map
        (fun r => (r.hostId, r.players.map (fun p => p.id)))
      = some ("a", ["b"])
    ∧ (leaveRoom stateBDisconnected "ABC234" "a" 9).1.map
        (fun r => r.players.any (fun p => p.id == r.hostId))
      = some false := by decide

/-- C1 (amended): when the departing host leaves others behind, host
authority transfers to the first remaining member in join order whose
connection state is Connected, and that member is still present; when no
remaining member is Connected there is no fallback — hostId is left
unchanged (and then refers to the departed user). -/
theorem claim_C1 (s : ServerState) (code uid : String) (now : Nat) (room : Room)
    (hfind : getRoomByCode s code = some room)
    (hnd : (room.players.map (fun p => p.id)).Nodup)
    (hmem : room.players.any (fun p => p.id == uid) = true)
    (hhost : room.hostId = uid)
    (hmore : 1 < room.players.length) :
    (∀ newHost,
      room.players.find? (fun p => p.id != uid && p.isConnected) = some newHost →
      (leaveRoom s code uid now).1.map (fun r => r.hostId) = some newHost.id
      ∧ (leaveRoom s code uid now).1.map
          (fun r => r.players.any (fun p => p.id == r.hostId)) = some true)
    ∧ (room.players.find? (fun p => p.id != uid && p.isConnected) = none →
      (leaveRoom s code uid now).1.map (fun r => r.hostId) = some room.hostId) := by
  have hcond : room.hostId = uid ∧ room.players.length > 1 := ⟨hhost, hmore⟩
  have hflen : ¬ (room.players.filter (fun p => p.id != uid)).length = 0 := by
    intro h0
    have := (filter_ne_length_zero_iff room.players uid hnd hmem).mp h0
    omega
  constructor
  · intro newHost hNH
    constructor
    · simp [leaveRoom, hfind, hmem, hcond, hNH, hflen]
    · have hmemN : newHost ∈ room.players := List.mem_of_find?_eq_some hNH
      have hpred := List.find?_some hNH
      have hne : (newHost.id != uid) = true := ((Bool.and_eq_true _ _).mp hpred).1
      simp [leaveRoom, hfind, hmem, hcond, hNH, hflen]
      exact ⟨newHost, hmemN, by simpa using hne, rfl⟩
  · intro hnone
    simp [leaveRoom, hfind, hmem, hcond, hnone, hflen]

/-- C1 witness: host "a" leaves the two-player room; connected userB becomes
host. -/
theorem claim_C1_witness :
    (leaveRoom stateTwoPlayers "ABC234" "a" 9).1.map (fun r => r.hostId)
      = some userB.id :=
  ((claim_C1 stateTwoPlayers "ABC234" "a" 9 roomTwoPlayers (by decide) (by decide)
      (by decide) (by decide) (by decide)).1 userB (by decide)).1


/-- C2 counterexample: stateComposing is reachable and already Composing,
yet startGame succeeds again — the claim that startGame succeeds only from
Waiting is false. -/
theorem claim_C2_counterexample :
    stateComposing = run [Op.create userA 10 "r1" "ABC234" 0,
      Op.join "ABC234" userB 1, Op.start "ABC234" "a" 0 2]
    ∧ (getRoomByCode stateComposing "ABC234").map (fun r => r.status)
        = some RoomStatus.composing
    ∧ ((startGame stateComposing "ABC234" "a" 0 3).1.map (fun r => r.status))
        = some RoomStatus.composing := by decide

/-- C2 (amended): in reachable states status never moves backward along
Waiting, Composing, Voting, Results under any operation; startGame performs
no status check, so it succeeds exactly under its host/count guards — from
Waiting or from Composing (the only reachable statuses) — and always moves
the status to Composing. Part three states the sufficiency over an
arbitrary state: whenever the room is found, the caller is its host and at
least 2 players are present, startGame succeeds and the result is the room
with status Composing, whatever the status was before. -/
theorem claim_C2 :
    (∀ (ops : List Op) (op : Op) (id : String) (r r' : Room),
      mapGet id (run ops).rooms = some r →
      mapGet id (applyOp (run ops) op).rooms = some r' →
      statusRank r.status ≤ statusRank r'.status)
    ∧ (∀ (ops : List Op) (code uid : String) (ti : Fin 10) (now : Nat)
        (r' : Room),
      (startGame (run ops) code uid ti now).1 = some r' →
      ∃ room, getRoomByCode (run ops) code = some room
        ∧ (room.status = RoomStatus.waiting
           ∨ room.status = RoomStatus.composing)
        ∧ r'.status = RoomStatus.composing)
    ∧ (∀ (s : ServerState) (code uid : String) (ti : Fin 10) (now : Nat)
        (room : Room),
      getRoomByCode s code = some room →
      room.hostId = uid →
      2 ≤ room.players.length →
      (startGame s code uid ti now).1 =
        some { room with
               status := RoomStatus.composing,
               theme := some (themes.get (ti.cast themes_length.symm)),
               updatedAt := now }) := by
  refine ⟨?_, ?_, ?_⟩
  · intro ops op id r r' h h'
    exact statusRank_mono_applyOp (stateInv_run ops) op id r r' h h'
  · intro ops code uid ti now r' hres
    cases hfind : getRoomByCode (run ops) code with
    | none => simp [startGame, hfind] at hres
    | some room =>
      by_cases hhost : room.hostId ≠ uid
      · simp [startGame, hfind, hhost] at hres
      · by_cases hcnt : room.players.length < 2
        · simp [startGame, hfind, hhost, hcnt] at hres
        · have hstatus := (getRoomByCode_mapGet (stateInv_run ops) hfind).2.1
          simp only [startGame, hfind, if_neg hhost, if_neg hcnt] at hres
          injection hres with hres
          exact ⟨room, rfl, hstatus, by rw [← hres]⟩
  · intro s code uid ti now room hfind hhost hcnt
    have hhost' : ¬ room.hostId ≠ uid := by simp [hhost]
    have hcnt' : ¬ room.players.length < 2 := Nat.not_lt.mpr hcnt
    simp [startGame, hfind, hhost', hcnt']

/-- C2 witness: starting the game in the reachable two-player room does not
lower the status rank, and starting it again from the already-Composing
room still succeeds (no status check), yielding the Composing result. -/
theorem claim_C2_witness :
    statusRank roomTwoPlayers.status ≤ statusRank roomComposing.status
    ∧ (startGame stateComposing "ABC234" "a" 0 3).1 =
        some { roomComposing with
               status := RoomStatus.composing,
               theme := some (themes.get ((0 : Fin 10).cast themes_length.symm)),
               updatedAt := 3 } :=
  ⟨claim_C2.1 [Op.create userA 10 "r1" "ABC234" 0, Op.join "ABC234" userB 1]
     (Op.start "ABC234" "a" 0 2) "r1" roomTwoPlayers roomComposing
     (by decide) (by decide),
   claim_C2.2.2 stateComposing "ABC234" "a" 0 3 roomComposing
     (by decide) (by decide) (by decide)⟩

/-- C4 counterexample: createRoom accepts maxPlayers = 0 and stores a
one-member room over capacity, so the claimed bound fails for that
create/join/leave sequence. -/
theorem claim_C4_counterexample :
    ((run [Op.create userA 0 "r1" "ABC234" 0]).rooms.all
      (fun e => e.2.players.length ≤ e.2.maxPlayers)) = false
    ∧ (run [Op.create userA 0 "r1" "ABC234" 0]).rooms.map
        (fun e => (e.2.players.length, e.2.maxPlayers)) = [(1, 0)] := by decide

/-- C4 (amended: provided every createRoom is called with capacity at least
1, as the source default 10 is): along any operation sequence every stored
room keeps 1 <= members.length <= maxPlayers, and a leaveRoom for a present
member deletes the room exactly when that member was the last one, after
which lookup by the former code fails; otherwise the room remains stored. -/
theorem claim_C4 (ops : List Op) (hops : ∀ op ∈ ops, Op.capOK op) :
    (∀ e ∈ (run ops).rooms,
      1 ≤ e.2.players.length ∧ e.2.players.length ≤ e.2.maxPlayers)
    ∧ (∀ (code uid : String) (now : Nat) (room : Room),
        getRoomByCode (run ops) code = some room →
        room.players.any (fun p => p.id == uid) = true →
        (((room.players.filter (fun p => p.id != uid)).length = 0
            ↔ room.players.length = 1)
         ∧ (room.players.length = 1 →
             (leaveRoom (run ops) code uid now).1 = none
             ∧ mapGet room.id (leaveRoom (run ops) code uid now).2.rooms = none
             ∧ getRoomByCode (leaveRoom (run ops) code uid now).2 room.code
                 = none)
         ∧ (room.players.length ≠ 1 →
             ¬ mapGet room.id (leaveRoom (run ops) code uid now).2.rooms
                 = none))) := by
  have hinv := stateInv_run ops
  have hcap := capInv_run ops hops
  constructor
  · intro e he
    exact ⟨(hinv.2 e he).2.2.2, hcap e he⟩
  · intro code uid now room hfind hmem
    have hroomwf := (getRoomByCode_mapGet hinv hfind).2
    have hiff := filter_ne_length_zero_iff room.players uid hroomwf.2.1 hmem
    refine ⟨hiff, ?_, ?_⟩
    · intro h1
      have hflen : (room.players.filter (fun p => p.id != uid)).length = 0 :=
        hiff.mpr h1
      have hstate : (leaveRoom (run ops) code uid now).2 =
          { rooms := mapDelete room.id (run ops).rooms,
            roomsByCode := mapDelete room.code (run ops).roomsByCode } := by
        simp [leaveRoom, hfind, hmem, hflen]
      refine ⟨by simp [leaveRoom, hfind, hmem, hflen], ?_, ?_⟩
      · rw [hstate]
        exact mapGet_mapDelete_self _ _
      · rw [hstate, getRoomByCode]
        by_cases hv : isValidRoomCode room.code
        · rw [if_neg (by simpa using hv)]
          rw [show mapGet room.code
              (mapDelete room.code (run ops).roomsByCode) = none from
            mapGet_mapDelete_self _ _]
        · rw [if_pos (by simpa using hv)]
    · intro h1
      have hflen : ¬ (room.players.filter (fun p => p.id != uid)).length = 0 :=
        fun h0 => h1 (hiff.mp h0)
      simp [leaveRoom, hfind, hmem, hflen, mapGet_mapSet_self]

/-- The room stored in stateSolo. -/
def roomSolo : Room :=
  { id := "r1", code := "ABC234", status := RoomStatus.waiting, hostId := "a",
    players := [userA], maxPlayers := 10, createdAt := 0, updatedAt := 0 }

/-- C4 witness: the sole member leaves and the room is gone, lookup by its
code included. -/
theorem claim_C4_witness :
    (leaveRoom stateSolo "ABC234" "a" 7).1 = none
    ∧ getRoomByCode (leaveRoom stateSolo "ABC234" "a" 7).2 "ABC234" = none := by
  have h := (claim_C4 [Op.create userA 10 "r1" "ABC234" 0]
      (by
        intro op hop
        rcases List.mem_singleton.mp hop with rfl
        show (1 : Nat) ≤ 10
        decide)).2 "ABC234" "a" 7 roomSolo (by decide) (by decide)
  have h2 := h.2.1 (by decide)
  exact ⟨h2.1, h2.2.2⟩

/-- C10: getAvailableRooms returns exactly the stored rooms in Waiting
status with spare capacity (as a permutation of that filtered list),
ordered newest-first by createdAt. -/
theorem claim_C10 (s : ServerState) :
    (getAvailableRooms s).Perm
      ((s.rooms.map Prod.snd).filter
        (fun room => room.status = RoomStatus.waiting
          ∧ room.players.length < room.maxPlayers))
    ∧ (getAvailableRooms s).Pairwise
        (fun a b => b.createdAt ≤ a.createdAt) := by
  constructor
  · exact List.mergeSort_perm _ _
  · unfold getAvailableRooms
    refine List.Pairwise.imp ?_ (List.sorted_mergeSort ?_ ?_ _)
    · intro a b hab
      simpa using hab
    · intro a b c hab hbc
      simp only [decide_eq_true_eq] at hab hbc ⊢
      omega
    · intro a b
      simp only [Bool.or_eq_true, decide_eq_true_eq]
      omega


/-- C10 witness at a concrete state. -/
theorem claim_C10_witness :
    (getAvailableRooms stateTwoPlayers).Perm
      ((stateTwoPlayers.rooms.map Prod.snd).filter
        (fun room => room.status = RoomStatus.waiting
          ∧ room.players.length < room.maxPlayers)) :=
  (claim_C10 stateTwoPlayers).1

end BeatBattles
